import Mathlib

/-!
Verification of the temp-directory allocation and locking subsystem
(`src/utils/temp-directory.js`).

The JavaScript module is shallowly embedded as follows:
* the filesystem visible to the module (the pool root, the directories
  directly under it, and the lock-marker files) is an explicit `FsState`;
* the synchronous filesystem primitives (`fs.openSync(_, 'wx')`,
  `fs.unlinkSync`, `ensureDir`, `readDir`, `tmp.tmpNameSync`) become pure
  functions on `FsState`; each fallible primitive takes an explicit fault
  flag modelling an I/O error (permissions, disk full, ...), and returns
  `Except Unit _` when the JavaScript function can throw;
* the classes `LockFile` and `TempDirectory` become structures, and their
  methods become functions that thread the mutated state explicitly;
* the module-level registry `USED_TEMP_DIRS` (a plain object keyed by the
  absolute directory path) becomes an association list inside `ProcState`.

`FsState.owned` is ghost instrumentation: it records exactly the marker
files that were created by this process (via `openSyncWx`) and not yet
unlinked by it.  It is updated only where `files` is updated and exists
solely to state ownership properties ("this process currently holds the
lock") in theorems.
-/

/-- Pool root: `path.join(os.tmpdir(), 'testcafe-tmp')`.  The concrete value
of `os.tmpdir()` is irrelevant to every property below; we fix the usual
Linux value. -/
def TESTCAFE_TMP_DIRS_ROOT : String := "/tmp/testcafe-tmp"

/-- Name of the lock-marker file placed inside a claimed directory. -/
def LOCKFILE_NAME : String := ".testcafe-lockfile"

/-- Model of `path.join` for the two-segment joins the module performs. -/
def pathJoin (a b : String) : String := a ++ "/" ++ b

/-- Split a character list at every `'/'` (the segments of a path); defined
structurally so that all path functions evaluate by kernel reduction. -/
def splitSlash : List Char → List (List Char)
  | [] => [[]]
  | ch :: rest =>
    let r := splitSlash rest
    if ch = '/' then [] :: r
    else
      match r with
      | [] => [[ch]]
      | seg :: segs => (ch :: seg) :: segs

/-- Model of `path.basename`: the last `/`-separated segment. -/
def pathBasename (p : String) : String := { data := (splitSlash p.data).getLastD [] }

/-- Directory part of a path (used to model `fs.readdir` listing the entries
directly under a directory): all segments but the last, rejoined. -/
def dirnameOf (p : String) : String :=
  { data := List.intercalate ['/'] (splitSlash p.data).dropLast }

/-- Model of JavaScript `String.prototype.startsWith`. -/
def strStartsWith (s pre : String) : Bool := pre.data.isPrefixOf s.data

/-- State of the part of the filesystem the module touches.
`dirs` holds the absolute paths of the directories inside the pool root;
`files` holds the absolute paths of the existing lock-marker files;
`owned` is the ghost list of markers created by this process and not yet
unlinked by it (see the module comment). -/
structure FsState where
  rootExists : Bool := false
  dirs : List String := []
  files : List String := []
  owned : List String := []
deriving DecidableEq, Repr

/-- Fault injection for the fallible filesystem primitives, plus the unique
suffix produced by `tmp.tmpNameSync`.  A `true` flag makes the corresponding
primitive fail (throw in JavaScript). -/
structure Faults where
  ensureRootErr : Bool := false
  readDirErr : Bool := false
  openErr : String → Bool := fun _ => false
  unlinkErr : String → Bool := fun _ => false
  ensureNewDirErr : Bool := false
  freshName : String := "11822-2222-aaaa"

/-- Model of `fs.openSync(p, 'wx')` followed by `fs.closeSync`: atomically
creates the file, failing if it already exists ('x') or on an injected I/O
error.  The ghost `owned` list records that this process created the file. -/
def openSyncWx (p : String) (fs : FsState) (ioErr : Bool) : Except Unit FsState :=
  if ioErr then Except.error ()
  else if p ∈ fs.files then Except.error ()
  else Except.ok { fs with files := p :: fs.files, owned := p :: fs.owned }

/-- Model of `fs.unlinkSync p`: deletes the file, failing if it does not
exist (ENOENT) or on an injected I/O error.  The ghost `owned` list drops
the file. -/
def unlinkSync (p : String) (fs : FsState) (ioErr : Bool) : Except Unit FsState :=
  if ioErr then Except.error ()
  else if p ∈ fs.files then
    Except.ok { fs with files := fs.files.filter (fun q => q != p),
                        owned := fs.owned.filter (fun q => q != p) }
  else Except.error ()

/-- Model of `ensureDir p` (`mkdir -p` semantics): creates the directory and
its parents; idempotent.  The module only ever ensures the pool root itself
or a directory directly under it. -/
def ensureDir (p : String) (fs : FsState) (ioErr : Bool) : Except Unit FsState :=
  if ioErr then Except.error ()
  else if p = TESTCAFE_TMP_DIRS_ROOT then Except.ok { fs with rootExists := true }
  else Except.ok { fs with rootExists := true,
                           dirs := if p ∈ fs.dirs then fs.dirs else fs.dirs ++ [p] }

/-- Names of the entries directly under the pool root, in filesystem
enumeration order (the order of `dirs`). -/
def readDirNames (fs : FsState) : List String :=
  (fs.dirs.filter (fun d => dirnameOf d = TESTCAFE_TMP_DIRS_ROOT)).map pathBasename

/-- Model of `readDir TESTCAFE_TMP_DIRS_ROOT`: fails if the pool root does
not exist or on an injected I/O error, otherwise lists the entry names. -/
def readDir (fs : FsState) (f : Faults) : Except Unit (List String) :=
  if fs.rootExists = false then Except.error ()
  else if f.readDirErr then Except.error ()
  else Except.ok (readDirNames fs)

/-- The class `LockFile`; its only field is `this.path`, the absolute path
of the marker file. -/
structure LockFile where
  path : String
deriving DecidableEq, Repr

/-- The `LockFile` constructor: `this.path = path.join(dirPath, LOCKFILE_NAME)`. -/
def LockFile.ofDir (dirPath : String) : LockFile :=
  { path := pathJoin dirPath LOCKFILE_NAME }

/-- `LockFile.prototype.init`: tries `fs.openSync(this.path, 'wx')`; on
success closes the descriptor and returns `true`; every exception is caught,
logged, and turned into `false`. -/
def LockFile.init (lf : LockFile) (fs : FsState) (ioErr : Bool) : Bool × FsState :=
  match openSyncWx lf.path fs ioErr with
  | Except.ok fs1 => (true, fs1)
  | Except.error _ => (false, fs)

/-- `LockFile.prototype.dispose`: tries `fs.unlinkSync(this.path)`; every
exception is caught and logged, the state is then left unchanged. -/
def LockFile.dispose (lf : LockFile) (fs : FsState) (ioErr : Bool) : FsState :=
  match unlinkSync lf.path fs ioErr with
  | Except.ok fs1 => fs1
  | Except.error _ => fs

/-- The class `TempDirectory`.  Field `namePref` is the source field
`namePrefix`; `path` and `lockFile` start out empty exactly as in the
constructor. -/
structure TempDirectory where
  namePref : String
  path : String := ""
  lockFile : Option LockFile := none
deriving DecidableEq, Repr

/-- The `TempDirectory` constructor. -/
def TempDirectory.create (np : String) : TempDirectory :=
  { namePref := np, path := "", lockFile := none }

/-- Lookup in the module-level registry `USED_TEMP_DIRS` (an object keyed by
absolute directory path, modelled as an association list in insertion
order). -/
def regFind (reg : List (String × TempDirectory)) (k : String) : Option TempDirectory :=
  match reg with
  | [] => none
  | (a, v) :: rest => if a = k then some v else regFind rest k

/-- Property assignment `USED_TEMP_DIRS[k] = v`: overwrites in place if the
key exists, otherwise appends (JavaScript object insertion order). -/
def regSet (reg : List (String × TempDirectory)) (k : String) (v : TempDirectory) :
    List (String × TempDirectory) :=
  match reg with
  | [] => [(k, v)]
  | (a, w) :: rest => if a = k then (a, v) :: rest else (a, w) :: regSet rest k v

/-- Property deletion `delete USED_TEMP_DIRS[k]`. -/
def regDelete (reg : List (String × TempDirectory)) (k : String) :
    List (String × TempDirectory) :=
  match reg with
  | [] => []
  | (a, w) :: rest => if a = k then rest else (a, w) :: regDelete rest k

/-- Whole mutable state of one process running the module: the filesystem it
sees plus the registry `USED_TEMP_DIRS`. -/
structure ProcState where
  fs : FsState
  registry : List (String × TempDirectory) := []
deriving DecidableEq, Repr

/-- Keys of the registry. -/
def regKeys (reg : List (String × TempDirectory)) : List String := reg.map Prod.fst

/-- Decidable equality on `Except`, so that concrete runs of the fallible
operations can be evaluated inside proofs. -/
instance {ε α : Type} [DecidableEq ε] [DecidableEq α] : DecidableEq (Except ε α) := fun a b =>
  match a, b with
  | Except.error e1, Except.error e2 =>
    if h : e1 = e2 then Decidable.isTrue (by rw [h])
    else Decidable.isFalse (by intro hh; cases hh; exact h rfl)
  | Except.error _, Except.ok _ => Decidable.isFalse (by intro hh; cases hh)
  | Except.ok _, Except.error _ => Decidable.isFalse (by intro hh; cases hh)
  | Except.ok a1, Except.ok a2 =>
    if h : a1 = a2 then Decidable.isTrue (by rw [h])
    else Decidable.isFalse (by intro hh; cases hh; exact h rfl)

/-- The two filters of `TempDirectory.prototype._getTmpDirsList` applied to
the listed entry names, in source order: first
`.filter(tmpDir => !USED_TEMP_DIRS[tmpDir])` (note that the lookup key is
the bare entry name), then
`.filter(tmpDir => path.basename(tmpDir).startsWith(this.namePrefix))`. -/
def filterTmpDirs (t : TempDirectory) (reg : List (String × TempDirectory))
    (tmpDirNames : List String) : List String :=
  (tmpDirNames.filter (fun tmpDir => !(regFind reg tmpDir).isSome)).filter
    (fun tmpDir => strStartsWith (pathBasename tmpDir) t.namePref)

/-- `TempDirectory.prototype._getTmpDirsList`: `readDir` on the pool root
followed by the two filters.  A `readDir` failure propagates (there is no
try/catch in the source). -/
def TempDirectory.getTmpDirsList (t : TempDirectory) (st : ProcState) (f : Faults) :
    Except Unit (List String) :=
  match readDir st.fs f with
  | Except.error e => Except.error e
  | Except.ok tmpDirNames => Except.ok (filterTmpDirs t st.registry tmpDirNames)

/-- `TempDirectory.prototype._findFreeTmpDir`: walk the candidate names in
order; for each, build the full path, construct a `LockFile` and try
`init`; the first successful `init` claims the directory (sets `this.path`
and `this.lockFile`) and stops.  Returns `none` when every attempt failed
(the JavaScript method returns `false`; the filesystem is then unchanged,
since a failed `init` does not modify it). -/
def TempDirectory.findFreeTmpDir (t : TempDirectory) (fs : FsState) (f : Faults) :
    List String → Option (TempDirectory × FsState)
  | [] => none
  | tmpDirName :: rest =>
    let tmpDirPath := pathJoin TESTCAFE_TMP_DIRS_ROOT tmpDirName
    let lockFile := LockFile.ofDir tmpDirPath
    match LockFile.init lockFile fs (f.openErr lockFile.path) with
    | (true, fs1) => some ({ t with path := tmpDirPath, lockFile := some lockFile }, fs1)
    | (false, _) => TempDirectory.findFreeTmpDir t fs f rest

/-- The absolute path `tmp.tmpNameSync({ dir: TESTCAFE_TMP_DIRS_ROOT,
prefix: this.namePrefix + '-' })` produces: the pool root joined with the
name `<namePrefix>-<unique suffix>`; the suffix is the oracle
`Faults.freshName`. -/
def freshTmpPath (t : TempDirectory) (f : Faults) : String :=
  pathJoin TESTCAFE_TMP_DIRS_ROOT (t.namePref ++ "-" ++ f.freshName)

/-- `TempDirectory.prototype._createNewTmpDir`: pick a fresh name, `ensureDir`
it (a failure here propagates), then construct a `LockFile` and call `init`
on it, discarding the boolean result (a failed `init` is logged inside
`init` and otherwise ignored). -/
def TempDirectory.createNewTmpDir (t : TempDirectory) (fs : FsState) (f : Faults) :
    Except Unit (TempDirectory × FsState) :=
  let p := freshTmpPath t f
  match ensureDir p fs f.ensureNewDirErr with
  | Except.error e => Except.error e
  | Except.ok fs1 =>
    let lockFile := LockFile.ofDir p
    let r := LockFile.init lockFile fs1 (f.openErr lockFile.path)
    Except.ok ({ t with path := p, lockFile := some lockFile }, r.2)

/-- `TempDirectory.prototype.init` (the allocation algorithm): ensure the
pool root, list and filter the candidates, try to claim one, otherwise
create a fresh directory; finally register the claimed path in
`USED_TEMP_DIRS`.  Failures of `ensureDir` on the pool root, of `readDir`,
and of the fresh-directory creation propagate; nothing else does.  The
first component is the result handed to the caller (`Except.error` models
the returned promise rejecting). -/
def TempDirectory.init (t : TempDirectory) (st : ProcState) (f : Faults) :
    Except Unit TempDirectory × ProcState :=
  match ensureDir TESTCAFE_TMP_DIRS_ROOT st.fs f.ensureRootErr with
  | Except.error _ => (Except.error (), st)
  | Except.ok fs0 =>
    let st0 : ProcState := { st with fs := fs0 }
    match TempDirectory.getTmpDirsList t st0 f with
    | Except.error _ => (Except.error (), st0)
    | Except.ok tmpDirNames =>
      match TempDirectory.findFreeTmpDir t st0.fs f tmpDirNames with
      | some (t1, fs1) =>
        (Except.ok t1, { fs := fs1, registry := regSet st0.registry t1.path t1 })
      | none =>
        match TempDirectory.createNewTmpDir t st0.fs f with
        | Except.error _ => (Except.error (), st0)
        | Except.ok (t1, fs1) =>
          (Except.ok t1, { fs := fs1, registry := regSet st0.registry t1.path t1 })

/-- `TempDirectory.prototype.dispose`: a no-op unless `this.path` is a key
of `USED_TEMP_DIRS`; otherwise dispose the lock file and delete the
registry entry.  The returned `TempDirectory` is `this` after the call: the
method never reassigns `this.path` or `this.lockFile`.  (A registered
allocation always has `lockFile` set; the `none` branch is unreachable in
the modelled executions and leaves the filesystem unchanged.) -/
def TempDirectory.dispose (t : TempDirectory) (st : ProcState) (f : Faults) :
    TempDirectory × ProcState :=
  if (regFind st.registry t.path).isSome = false then (t, st)
  else
    let fs1 := match t.lockFile with
      | some lf => LockFile.dispose lf st.fs (f.unlinkErr lf.path)
      | none => st.fs
    (t, { fs := fs1, registry := regDelete st.registry t.path })

/-- `TempDirectory.disposeDirectories` (the exit hook):
`Object.values(USED_TEMP_DIRS).forEach(tmpDir => tmpDir.dispose())` — a
snapshot of the registered allocations, each disposed in turn. -/
def TempDirectory.disposeDirectories (st : ProcState) (f : Faults) : ProcState :=
  (st.registry.map Prod.snd).foldl (fun s tmpDir => (TempDirectory.dispose tmpDir s f).2) st

/-- The filesystem right after `ensureDir(TESTCAFE_TMP_DIRS_ROOT)` succeeds. -/
def poolFs (fs : FsState) : FsState := { fs with rootExists := true }

/-- The candidate list `TempDirectory.prototype.init` computes when neither
`ensureDir` on the pool root nor `readDir` fails. -/
def candidateNames (t : TempDirectory) (st : ProcState) : List String :=
  filterTmpDirs t st.registry (readDirNames (poolFs st.fs))

/-- Specification-side description of the candidate scan: the first name in
the list whose lock marker can be created (marker absent and no injected
I/O error at it).  `TempDirectory.findFreeTmpDir` is proved to claim
exactly this candidate. -/
def firstFreeName (fs : FsState) (f : Faults) : List String → Option String
  | [] => none
  | c :: rest =>
    let mk := pathJoin (pathJoin TESTCAFE_TMP_DIRS_ROOT c) LOCKFILE_NAME
    if f.openErr mk = false ∧ mk ∉ fs.files then some c else firstFreeName fs f rest

/-- Marker file path for the directory named `c` under the pool root. -/
def markerName (c : String) : String :=
  pathJoin (pathJoin TESTCAFE_TMP_DIRS_ROOT c) LOCKFILE_NAME

/-- Marker file path for the directory whose absolute path is `p`. -/
def markerOfDir (p : String) : String := pathJoin p LOCKFILE_NAME

/-- This process currently holds the lock of directory `p`: its marker was
created by this process (ghost `owned`) and not yet released. -/
def holdsLock (fs : FsState) (p : String) : Prop := markerOfDir p ∈ fs.owned

/-- Well-formedness of the registry, as established by the module itself:
keys are pairwise distinct, each value records its own key as `path`, and
its `lockFile` points at the marker inside that directory. -/
def regWF (reg : List (String × TempDirectory)) : Prop :=
  (regKeys reg).Nodup ∧
  ∀ kv ∈ reg, kv.2.path = kv.1 ∧ kv.2.lockFile = some (LockFile.ofDir kv.1)

instance (reg : List (String × TempDirectory)) : Decidable (regWF reg) := by
  unfold regWF
  exact inferInstance

/-- The registry/lock invariant of the spec ("a path appears in the registry
if and only if this process currently holds its lock"), together with the
bookkeeping facts needed to preserve it: registry keys are distinct, every
registered path's marker is held (ghost-owned), every held marker is the
marker of some registered path, and held markers exist on disk. -/
def registryLockInv (st : ProcState) : Prop :=
  (regKeys st.registry).Nodup ∧
  (∀ kv ∈ st.registry, markerOfDir kv.1 ∈ st.fs.owned) ∧
  (∀ m ∈ st.fs.owned, ∃ kv ∈ st.registry, m = markerOfDir kv.1) ∧
  (∀ m ∈ st.fs.owned, m ∈ st.fs.files)

instance (st : ProcState) : Decidable (registryLockInv st) := by
  unfold registryLockInv
  exact inferInstance

namespace TwoProc

/-!
Small-step model of two independent processes running
`TempDirectory.prototype.init` concurrently against the same pool root,
for the cross-process mutual-exclusion property.  Each atomic step is one
filesystem syscall of the algorithm; a schedule (`List Bool`) picks which
process performs the next step.  `dirs` holds the entry *names* under the
pool root, `files` the absolute marker paths.  No faults are injected: the
two-process properties concern races, not I/O errors, and the processes are
fresh, so their registries are empty and the registry filter of
`_getTmpDirsList` keeps every listed name.
-/

/-- Program counter of one process running the allocation algorithm. -/
inductive Phase where
  /-- Before `ensureDir` on the pool root / the candidate scan snapshot. -/
  | start
  /-- Scanning: the candidate names not yet tried, in listing order. -/
  | scan (cands : List String)
  /-- The fresh directory `p` was created; its lock `init` is still pending. -/
  | madeDir (p : String)
  /-- Allocation finished with `this.path = p`. -/
  | done (p : String)
deriving DecidableEq, Repr

/-- Local state of one process: its name filter, the unique suffix its
`tmp.tmpNameSync` produces, its program counter, and the ghost flag telling
whether its lock-marker creation succeeded. -/
structure PState where
  pref : String
  freshName : String
  phase : Phase := Phase.start
  lockAcquired : Bool := false
deriving DecidableEq, Repr

/-- Shared filesystem plus the two processes. -/
structure SysState where
  dirs : List String := []
  files : List String := []
  proc1 : PState
  proc2 : PState
deriving DecidableEq, Repr

/-- One atomic step of a single process, given the shared `dirs`/`files`;
returns the new local state and the new shared lists. -/
def stepP (ps : PState) (dirs files : List String) :
    PState × List String × List String :=
  match ps.phase with
  | Phase.start =>
    -- ensureDir on the pool root, then the readdir snapshot with the two
    -- `_getTmpDirsList` filters (the process's own registry is empty).
    ({ ps with phase := Phase.scan (dirs.filter (fun n => strStartsWith n ps.pref)) },
     dirs, files)
  | Phase.scan [] =>
    -- `_createNewTmpDir` part 1: `tmp.tmpNameSync` + `ensureDir`; the lock
    -- `init` on the new directory is a separate, later step.
    let n := ps.pref ++ "-" ++ ps.freshName
    ({ ps with phase := Phase.madeDir (pathJoin TESTCAFE_TMP_DIRS_ROOT n) },
     (if n ∈ dirs then dirs else dirs ++ [n]), files)
  | Phase.scan (c :: rest) =>
    -- `_findFreeTmpDir` body: one `LockFile.init` attempt on candidate `c`.
    let p := pathJoin TESTCAFE_TMP_DIRS_ROOT c
    if markerOfDir p ∈ files then ({ ps with phase := Phase.scan rest }, dirs, files)
    else ({ ps with phase := Phase.done p, lockAcquired := true },
          dirs, markerOfDir p :: files)
  | Phase.madeDir p =>
    -- `_createNewTmpDir` part 2: `LockFile.init` on the fresh directory;
    -- a failure (marker already present) is caught and ignored, and the
    -- allocation still completes with `this.path = p`.
    if markerOfDir p ∈ files then ({ ps with phase := Phase.done p }, dirs, files)
    else ({ ps with phase := Phase.done p, lockAcquired := true },
          dirs, markerOfDir p :: files)
  | Phase.done _ => (ps, dirs, files)

/-- One step of the whole system: `false` steps process 1, `true` process 2. -/
def step (s : SysState) (who : Bool) : SysState :=
  if who = false then
    let r := stepP s.proc1 s.dirs s.files
    { s with proc1 := r.1, dirs := r.2.1, files := r.2.2 }
  else
    let r := stepP s.proc2 s.dirs s.files
    { s with proc2 := r.1, dirs := r.2.1, files := r.2.2 }

/-- Run a schedule. -/
def run (s : SysState) : List Bool → SysState
  | [] => s
  | w :: ws => run (step s w) ws

/-- A process that believes it acquired a lock is finished, and the marker
of its allocated directory is on disk. -/
def okP (ps : PState) (files : List String) : Prop :=
  ps.lockAcquired = true → ∃ p, ps.phase = Phase.done p ∧ markerOfDir p ∈ files

/-- Mutual exclusion for the two processes: if both acquired their lock,
their allocated paths differ. -/
def excl (s : SysState) : Prop :=
  ∀ p q, s.proc1.lockAcquired = true → s.proc2.lockAcquired = true →
    s.proc1.phase = Phase.done p → s.proc2.phase = Phase.done q → p ≠ q

/-- System invariant for the interleaved executions. -/
def SysInv (s : SysState) : Prop :=
  okP s.proc1 s.files ∧ okP s.proc2 s.files ∧ excl s

end TwoProc

/-!
Concrete fixtures used by the witness and counterexample theorems below:
two allocations for the `"worker"` filter, already claimed and registered,
over a pool root holding their two directories.
-/

/-- Absolute path of the pool directory `worker-a`. -/
def dirA : String := pathJoin TESTCAFE_TMP_DIRS_ROOT "worker-a"

/-- Absolute path of the pool directory `worker-b`. -/
def dirB : String := pathJoin TESTCAFE_TMP_DIRS_ROOT "worker-b"

/-- An allocation currently holding `dirA`. -/
def allocA : TempDirectory :=
  { namePref := "worker", path := dirA, lockFile := some (LockFile.ofDir dirA) }

/-- An allocation currently holding `dirB`. -/
def allocB : TempDirectory :=
  { namePref := "worker", path := dirB, lockFile := some (LockFile.ofDir dirB) }

/-- A process state in which `allocA` and `allocB` are both claimed and
registered. -/
def stAB : ProcState :=
  { fs := { rootExists := true, dirs := [dirA, dirB],
            files := [markerOfDir dirA, markerOfDir dirB],
            owned := [markerOfDir dirA, markerOfDir dirB] },
    registry := [(dirA, allocA), (dirB, allocB)] }

/-- The fault-free environment. -/
def noFaults : Faults := {}

/-- Start state of the double-dispose scenario: only `worker-a` exists,
unlocked, nothing registered. -/
def c6Start : ProcState := { fs := { dirs := [dirA] } }

/-- After the first allocation of the scenario (which claims `worker-a`). -/
def c6AfterFirstAlloc : ProcState :=
  (TempDirectory.init (TempDirectory.create "worker") c6Start noFaults).2

/-- After the first `dispose` of that allocation: `worker-a` is free again. -/
def c6AfterFirstDispose : ProcState :=
  (TempDirectory.dispose allocA c6AfterFirstAlloc noFaults).2

/-- After a second, independent allocation in the same process, which
re-claims `worker-a`. -/
def c6AfterSecondAlloc : ProcState :=
  (TempDirectory.init (TempDirectory.create "worker") c6AfterFirstDispose noFaults).2

/-- A freshly constructed, unclaimed allocation for the `"worker"` filter. -/
def tWorker : TempDirectory := TempDirectory.create "worker"

/-- The empty initial process state: no pool root, no directories, no
markers, empty registry. -/
def stEmpty : ProcState := { fs := {} }

/-- Environment in which only the directory listing of the pool root fails. -/
def faultsReadDir : Faults := { readDirErr := true }

/-- A process state with the two worker directories present and unlocked,
and nothing registered. -/
def stScan : ProcState := { fs := { dirs := [dirA, dirB] } }

/-- Environment in which only the exclusive create of the marker file of the
fresh directory `worker-11822-2222-aaaa` fails. -/
def faultsFreshLock : Faults :=
  { openErr := fun q => q == markerOfDir (pathJoin TESTCAFE_TMP_DIRS_ROOT "worker-11822-2222-aaaa") }

/-- Two fresh processes racing over an empty pool root. -/
def c1Race : TwoProc.SysState :=
  { dirs := [], files := [],
    proc1 := { pref := "worker", freshName := "a1b2" },
    proc2 := { pref := "worker", freshName := "c3d4" } }

/-- The interleaving that exhibits the fresh-directory window: process 1
creates its fresh directory, process 2 scans, sees it and locks it first,
then process 1's own lock attempt fails and is swallowed. -/
def c1Sched : List Bool := [false, false, true, true, false]

/-- Two fresh processes racing over a pool root that already holds the
unlocked directories `worker-a` and `worker-b`. -/
def c1Both : TwoProc.SysState :=
  { dirs := ["worker-a", "worker-b"], files := [],
    proc1 := { pref := "worker", freshName := "a1b2" },
    proc2 := { pref := "worker", freshName := "c3d4" } }

/-- An interleaving in which both processes acquire a lock: process 1 claims
`worker-a`; process 2 loses the race on `worker-a` and claims `worker-b`. -/
def c1SchedB : List Bool := [false, false, true, true, true]

theorem strAppendCancelRight (a b s : String) (h : a ++ s = b ++ s) : a = b := by
  have hd : a.data ++ s.data = b.data ++ s.data := congrArg String.data h
  have hab : a.data = b.data := List.append_cancel_right hd
  cases a; cases b
  exact congrArg String.mk hab

theorem markerOfDir_inj (a b : String) (h : markerOfDir a = markerOfDir b) : a = b := by
  have h1 : (a ++ "/") ++ LOCKFILE_NAME = (b ++ "/") ++ LOCKFILE_NAME := h
  have h2 : a ++ "/" = b ++ "/" := strAppendCancelRight _ _ _ h1
  exact strAppendCancelRight _ _ _ h2

theorem strLengthAppend (a b : String) : (a ++ b).length = a.length + b.length := by
  show (a.data ++ b.data).length = a.data.length + b.data.length
  exact List.length_append _ _

theorem freshTmpPath_ne_root (t : TempDirectory) (f : Faults) :
    freshTmpPath t f ≠ TESTCAFE_TMP_DIRS_ROOT := by
  intro h
  have hl := congrArg String.length h
  rw [freshTmpPath, pathJoin] at hl
  simp only [strLengthAppend] at hl
  have l1 : ("/" : String).length = 1 := rfl
  have l2 : ("-" : String).length = 1 := rfl
  rw [l1, l2] at hl
  omega

theorem regKeys_cons (a : String) (w : TempDirectory) (rest : List (String × TempDirectory)) :
    regKeys ((a, w) :: rest) = a :: regKeys rest := rfl

theorem mem_regKeys_of_mem {reg : List (String × TempDirectory)}
    {kv : String × TempDirectory} (h : kv ∈ reg) : kv.1 ∈ regKeys reg :=
  List.mem_map_of_mem Prod.fst h

theorem exists_of_mem_regKeys {reg : List (String × TempDirectory)} {k : String}
    (h : k ∈ regKeys reg) : ∃ v, (k, v) ∈ reg := by
  rcases List.mem_map.1 h with ⟨⟨a, v⟩, hm, he⟩
  cases he
  exact ⟨v, hm⟩

theorem regFind_isSome_iff (reg : List (String × TempDirectory)) (k : String) :
    (regFind reg k).isSome = true ↔ k ∈ regKeys reg := by
  induction reg with
  | nil => simp [regFind, regKeys]
  | cons kv rest ih =>
    obtain ⟨a, v⟩ := kv
    by_cases h : a = k
    · subst h; simp [regFind, regKeys]
    · rw [regKeys_cons]
      simp only [regFind, h, if_false, List.mem_cons]
      rw [ih]
      exact ⟨Or.inr, fun hh => hh.resolve_left (fun he => h he.symm)⟩

theorem regFind_regSet_self (reg : List (String × TempDirectory)) (k : String)
    (v : TempDirectory) : regFind (regSet reg k v) k = some v := by
  induction reg with
  | nil => simp [regSet, regFind]
  | cons kv rest ih =>
    obtain ⟨a, w⟩ := kv
    by_cases h : a = k <;> simp [regSet, regFind, h, ih]

theorem regSet_of_not_mem (reg : List (String × TempDirectory)) (k : String)
    (v : TempDirectory) (h : k ∉ regKeys reg) : regSet reg k v = reg ++ [(k, v)] := by
  induction reg with
  | nil => simp [regSet]
  | cons kv rest ih =>
    obtain ⟨a, w⟩ := kv
    rw [regKeys_cons] at h
    have ha : ¬a = k := by
      intro he; subst he; exact h (List.mem_cons_self _ _)
    have hrest : k ∉ regKeys rest := fun hm => h (List.mem_cons_of_mem _ hm)
    simp [regSet, ha, ih hrest]

theorem regFind_regDelete_of_ne (reg : List (String × TempDirectory)) (k k2 : String)
    (h : k2 ≠ k) : regFind (regDelete reg k) k2 = regFind reg k2 := by
  induction reg with
  | nil => rfl
  | cons kv rest ih =>
    obtain ⟨a, w⟩ := kv
    by_cases ha : a = k
    · subst ha
      simp [regDelete, regFind, Ne.symm h]
    · simp only [regDelete, ha, if_false, regFind]
      by_cases hb : a = k2 <;> simp [hb, ih]

theorem mem_regDelete_of_ne (reg : List (String × TempDirectory)) (k : String)
    (kv : String × TempDirectory) (hm : kv ∈ reg) (hne : kv.1 ≠ k) :
    kv ∈ regDelete reg k := by
  induction reg with
  | nil => simp at hm
  | cons hd rest ih =>
    obtain ⟨a, w⟩ := hd
    by_cases ha : a = k
    · cases hm with
      | head => exact absurd ha hne
      | tail _ hm2 => simpa [regDelete, ha] using hm2
    · cases hm with
      | head => simp [regDelete, ha]
      | tail _ hm2 =>
        rw [show regDelete ((a, w) :: rest) k = (a, w) :: regDelete rest k from by
          simp [regDelete, ha]]
        exact List.mem_cons_of_mem _ (ih hm2)

theorem mem_of_mem_regDelete (reg : List (String × TempDirectory)) (k : String)
    (kv : String × TempDirectory) (hm : kv ∈ regDelete reg k) : kv ∈ reg := by
  induction reg with
  | nil => simp [regDelete] at hm
  | cons hd rest ih =>
    obtain ⟨a, w⟩ := hd
    by_cases ha : a = k
    · rw [show regDelete ((a, w) :: rest) k = rest from by simp [regDelete, ha]] at hm
      exact List.mem_cons_of_mem _ hm
    · rw [show regDelete ((a, w) :: rest) k = (a, w) :: regDelete rest k from by
        simp [regDelete, ha]] at hm
      cases hm with
      | head => exact List.mem_cons_self _ _
      | tail _ hm2 => exact List.mem_cons_of_mem _ (ih hm2)

theorem regKeys_regDelete_subset (reg : List (String × TempDirectory)) (k k2 : String)
    (hm : k2 ∈ regKeys (regDelete reg k)) : k2 ∈ regKeys reg := by
  obtain ⟨v, hv⟩ := exists_of_mem_regKeys hm
  exact mem_regKeys_of_mem (mem_of_mem_regDelete _ _ _ hv)

theorem regKeys_nodup_regDelete (reg : List (String × TempDirectory)) (k : String)
    (h : (regKeys reg).Nodup) : (regKeys (regDelete reg k)).Nodup := by
  induction reg with
  | nil => simp [regDelete, regKeys]
  | cons hd rest ih =>
    obtain ⟨a, w⟩ := hd
    rw [regKeys_cons] at h
    obtain ⟨hnin, hrest⟩ := List.nodup_cons.1 h
    by_cases ha : a = k
    · rw [show regDelete ((a, w) :: rest) k = rest from by simp [regDelete, ha]]
      exact hrest
    · rw [show regDelete ((a, w) :: rest) k = (a, w) :: regDelete rest k from by
        simp [regDelete, ha], regKeys_cons]
      exact List.nodup_cons.2
        ⟨fun hmem => hnin (regKeys_regDelete_subset _ _ _ hmem), ih hrest⟩

theorem not_mem_regKeys_regDelete_self (reg : List (String × TempDirectory)) (k : String)
    (h : (regKeys reg).Nodup) : k ∉ regKeys (regDelete reg k) := by
  induction reg with
  | nil => simp [regDelete, regKeys]
  | cons hd rest ih =>
    obtain ⟨a, w⟩ := hd
    rw [regKeys_cons] at h
    obtain ⟨hnin, hrest⟩ := List.nodup_cons.1 h
    by_cases ha : a = k
    · rw [show regDelete ((a, w) :: rest) k = rest from by simp [regDelete, ha]]
      subst ha
      exact fun hm => hnin hm
    · rw [show regDelete ((a, w) :: rest) k = (a, w) :: regDelete rest k from by
        simp [regDelete, ha], regKeys_cons]
      intro hm
      cases List.mem_cons.1 hm with
      | inl he => exact ha he.symm
      | inr hm2 => exact ih hrest hm2

theorem regFind_regDelete_self (reg : List (String × TempDirectory)) (k : String)
    (h : (regKeys reg).Nodup) : regFind (regDelete reg k) k = none := by
  have hn := not_mem_regKeys_regDelete_self reg k h
  cases hf : regFind (regDelete reg k) k with
  | none => rfl
  | some v =>
    exact absurd ((regFind_isSome_iff _ _).1 (by simp [hf])) hn

theorem regDelete_of_not_mem (reg : List (String × TempDirectory)) (k : String)
    (h : k ∉ regKeys reg) : regDelete reg k = reg := by
  induction reg with
  | nil => rfl
  | cons hd rest ih =>
    obtain ⟨a, w⟩ := hd
    rw [regKeys_cons] at h
    have ha : ¬a = k := by
      intro he; subst he; exact h (List.mem_cons_self _ _)
    have hrest : k ∉ regKeys rest := fun hm => h (List.mem_cons_of_mem _ hm)
    simp [regDelete, ha, ih hrest]

theorem lockInit_succ (lf : LockFile) (fs : FsState) (ioErr : Bool)
    (h1 : ioErr = false) (h2 : lf.path ∉ fs.files) :
    LockFile.init lf fs ioErr =
      (true, { fs with files := lf.path :: fs.files, owned := lf.path :: fs.owned }) := by
  simp [LockFile.init, openSyncWx, h1, h2]

theorem lockInit_fail (lf : LockFile) (fs : FsState) (ioErr : Bool)
    (h : ioErr = true ∨ lf.path ∈ fs.files) :
    LockFile.init lf fs ioErr = (false, fs) := by
  rcases h with h | h
  · simp [LockFile.init, openSyncWx, h]
  · cases hi : ioErr
    · simp [LockFile.init, openSyncWx, hi, h]
    · simp [LockFile.init, openSyncWx, hi]

theorem lockInit_fst_true_iff (lf : LockFile) (fs : FsState) (ioErr : Bool) :
    (LockFile.init lf fs ioErr).1 = true ↔ (ioErr = false ∧ lf.path ∉ fs.files) := by
  by_cases h1 : ioErr = false
  · by_cases h2 : lf.path ∈ fs.files
    · rw [lockInit_fail lf fs ioErr (Or.inr h2)]
      simp [h1, h2]
    · rw [lockInit_succ lf fs ioErr h1 h2]
      simp [h1, h2]
  · rw [lockInit_fail lf fs ioErr (Or.inl (by revert h1; cases ioErr <;> simp))]
    simp [h1]

theorem ofDir_path (p : String) : (LockFile.ofDir p).path = markerOfDir p := rfl

theorem markerName_eq (c : String) :
    markerName c = markerOfDir (pathJoin TESTCAFE_TMP_DIRS_ROOT c) := rfl

theorem findFree_eq_firstFree (t : TempDirectory) (fs : FsState) (f : Faults)
    (names : List String) :
    TempDirectory.findFreeTmpDir t fs f names =
      (firstFreeName fs f names).map (fun c =>
        ({ t with path := pathJoin TESTCAFE_TMP_DIRS_ROOT c,
                  lockFile := some (LockFile.ofDir (pathJoin TESTCAFE_TMP_DIRS_ROOT c)) },
         { fs with files := markerName c :: fs.files,
                   owned := markerName c :: fs.owned })) := by
  induction names with
  | nil => rfl
  | cons c rest ih =>
    by_cases h1 : f.openErr (markerName c) = false
    · by_cases h2 : markerName c ∈ fs.files
      · have hfail : LockFile.init (LockFile.ofDir (pathJoin TESTCAFE_TMP_DIRS_ROOT c)) fs
            (f.openErr (LockFile.ofDir (pathJoin TESTCAFE_TMP_DIRS_ROOT c)).path) =
            (false, fs) := lockInit_fail _ _ _ (Or.inr h2)
        simp only [TempDirectory.findFreeTmpDir, hfail, ih, firstFreeName]
        rw [if_neg (fun hc => hc.2 h2)]
      · have hsucc : LockFile.init (LockFile.ofDir (pathJoin TESTCAFE_TMP_DIRS_ROOT c)) fs
            (f.openErr (LockFile.ofDir (pathJoin TESTCAFE_TMP_DIRS_ROOT c)).path) =
            (true, { fs with files := markerName c :: fs.files,
                             owned := markerName c :: fs.owned }) :=
          lockInit_succ _ _ _ h1 h2
        simp only [TempDirectory.findFreeTmpDir, hsucc, firstFreeName]
        rw [if_pos ⟨h1, h2⟩]
        rfl
    · have hfail : LockFile.init (LockFile.ofDir (pathJoin TESTCAFE_TMP_DIRS_ROOT c)) fs
          (f.openErr (LockFile.ofDir (pathJoin TESTCAFE_TMP_DIRS_ROOT c)).path) =
          (false, fs) :=
        lockInit_fail _ _ _ (Or.inl (by
          show f.openErr (markerName c) = true
          revert h1; cases f.openErr (markerName c) <;> simp))
      simp only [TempDirectory.findFreeTmpDir, hfail, ih, firstFreeName]
      rw [if_neg (fun hc => absurd hc.1 h1)]

theorem firstFreeName_some_spec (fs : FsState) (f : Faults) (names : List String)
    (c : String) (h : firstFreeName fs f names = some c) :
    c ∈ names ∧ f.openErr (markerName c) = false ∧ markerName c ∉ fs.files := by
  induction names with
  | nil => simp [firstFreeName] at h
  | cons d rest ih =>
    by_cases hd : f.openErr (markerName d) = false ∧ markerName d ∉ fs.files
    · rw [firstFreeName, if_pos (by exact hd)] at h
      cases h
      exact ⟨List.mem_cons_self _ _, hd⟩
    · rw [firstFreeName, if_neg (by exact hd)] at h
      obtain ⟨hm, hrest⟩ := ih h
      exact ⟨List.mem_cons_of_mem _ hm, hrest⟩

theorem ensureDir_root_ok (fs : FsState) : ensureDir TESTCAFE_TMP_DIRS_ROOT fs false = Except.ok (poolFs fs) := rfl

theorem poolFs_dirs (fs : FsState) : (poolFs fs).dirs = fs.dirs := rfl

theorem readDirNames_poolFs (fs : FsState) : readDirNames (poolFs fs) = readDirNames fs := rfl

theorem getTmpDirsList_ok (t : TempDirectory) (st : ProcState) (f : Faults)
    (hroot : st.fs.rootExists = true) (hrd : f.readDirErr = false) :
    TempDirectory.getTmpDirsList t st f =
      Except.ok (filterTmpDirs t st.registry (readDirNames st.fs)) := by
  simp [TempDirectory.getTmpDirsList, readDir, hroot, hrd]

theorem init_err_root (t : TempDirectory) (st : ProcState) (f : Faults)
    (h : f.ensureRootErr = true) :
    TempDirectory.init t st f = (Except.error (), st) := by
  simp [TempDirectory.init, ensureDir, h]

theorem init_err_readDir (t : TempDirectory) (st : ProcState) (f : Faults)
    (h0 : f.ensureRootErr = false) (h1 : f.readDirErr = true) :
    TempDirectory.init t st f = (Except.error (), { st with fs := poolFs st.fs }) := by
  simp [TempDirectory.init, ensureDir, h0, TempDirectory.getTmpDirsList, readDir, poolFs, h1]

theorem init_run (t : TempDirectory) (st : ProcState) (f : Faults)
    (h0 : f.ensureRootErr = false) (h1 : f.readDirErr = false) :
    TempDirectory.init t st f =
      (match TempDirectory.findFreeTmpDir t (poolFs st.fs) f (candidateNames t st) with
       | some (t1, fs1) =>
         (Except.ok t1, { fs := fs1, registry := regSet st.registry t1.path t1 })
       | none =>
         match TempDirectory.createNewTmpDir t (poolFs st.fs) f with
         | Except.error _ => (Except.error (), { st with fs := poolFs st.fs })
         | Except.ok (t1, fs1) =>
           (Except.ok t1, { fs := fs1, registry := regSet st.registry t1.path t1 })) := by
  rw [TempDirectory.init, h0]
  rw [ensureDir_root_ok]
  dsimp only
  rw [getTmpDirsList_ok t { st with fs := poolFs st.fs } f rfl h1]
  rfl

theorem createNewTmpDir_ok (t : TempDirectory) (fs : FsState) (f : Faults)
    (h : f.ensureNewDirErr = false) :
    TempDirectory.createNewTmpDir t fs f = Except.ok
      ({ t with path := freshTmpPath t f,
                lockFile := some (LockFile.ofDir (freshTmpPath t f)) },
       (LockFile.init (LockFile.ofDir (freshTmpPath t f))
          { fs with rootExists := true,
                    dirs := if freshTmpPath t f ∈ fs.dirs then fs.dirs
                            else fs.dirs ++ [freshTmpPath t f] }
          (f.openErr (LockFile.ofDir (freshTmpPath t f)).path)).2) := by
  rw [TempDirectory.createNewTmpDir]
  rw [show ensureDir (freshTmpPath t f) fs f.ensureNewDirErr = Except.ok
      { fs with rootExists := true,
                dirs := if freshTmpPath t f ∈ fs.dirs then fs.dirs
                        else fs.dirs ++ [freshTmpPath t f] } from by
    simp [ensureDir, h, freshTmpPath_ne_root t f]]

theorem createNewTmpDir_err (t : TempDirectory) (fs : FsState) (f : Faults)
    (h : f.ensureNewDirErr = true) :
    TempDirectory.createNewTmpDir t fs f = Except.error () := by
  simp [TempDirectory.createNewTmpDir, ensureDir, h]

/-- C5: `LockFile.init` (the lock acquire) atomically attempts the
exclusive-create of the marker file and returns a boolean: `true` exactly
when this call created the marker (equivalently, exactly when the raw
exclusive create `openSyncWx` succeeded), `false` when the marker already
existed or creation failed for any other injected reason.  It never throws
(it is a total function into `Bool × FsState`, every exception of the raw
create being caught) and never overwrites: on `false` the filesystem is
returned unchanged. -/
theorem C5_lock_acquire_exclusive_create :
    ∀ (lf : LockFile) (fs : FsState) (ioErr : Bool),
      ((LockFile.init lf fs ioErr).1 = true ↔ (ioErr = false ∧ lf.path ∉ fs.files)) ∧
      ((LockFile.init lf fs ioErr).2 =
        if ioErr = false ∧ lf.path ∉ fs.files then
          { fs with files := lf.path :: fs.files, owned := lf.path :: fs.owned }
        else fs) ∧
      ((LockFile.init lf fs ioErr).1 = true ↔
        openSyncWx lf.path fs ioErr = Except.ok (LockFile.init lf fs ioErr).2) := by
  intro lf fs ioErr
  by_cases h1 : ioErr = false
  · by_cases h2 : lf.path ∈ fs.files
    · rw [lockInit_fail lf fs ioErr (Or.inr h2)]
      refine ⟨by simp [h2], by rw [if_neg (fun hc => hc.2 h2)], ?_⟩
      subst h1
      simp [openSyncWx, h2]
    · rw [lockInit_succ lf fs ioErr h1 h2]
      refine ⟨by simp [h1, h2], by rw [if_pos ⟨h1, h2⟩], ?_⟩
      subst h1
      simp [openSyncWx, h2]
  · have h1t : ioErr = true := by revert h1; cases ioErr <;> simp
    rw [lockInit_fail lf fs ioErr (Or.inl h1t)]
    subst h1t
    refine ⟨by simp, by rw [if_neg (fun hc => by simp [hc.1] at *)], by simp [openSyncWx]⟩

/-- C10: `TempDirectory.dispose` on an allocation `t` leaves `t` itself
untouched (`this.path` and `this.lockFile` are never reassigned, so a
disposed allocation still reports the path it held), removes only the
registry entry keyed by `t.path` (none when `t.path` is not registered),
and leaves the entry of every other key unchanged. -/
theorem C10_dispose_registry_frame :
    ∀ (t : TempDirectory) (st : ProcState) (f : Faults),
      ((TempDirectory.dispose t st f).1 = t) ∧
      (∀ k, k ≠ t.path →
        regFind (TempDirectory.dispose t st f).2.registry k = regFind st.registry k) ∧
      ((regKeys st.registry).Nodup →
        regFind (TempDirectory.dispose t st f).2.registry t.path = none) := by
  intro t st f
  by_cases hreg : (regFind st.registry t.path).isSome = false
  · rw [TempDirectory.dispose, if_pos hreg]
    refine ⟨rfl, fun k _ => rfl, fun _ => ?_⟩
    cases hf : regFind st.registry t.path with
    | none => rfl
    | some v => rw [hf] at hreg; simp at hreg
  · rw [TempDirectory.dispose, if_neg hreg]
    exact ⟨rfl, fun k hk => regFind_regDelete_of_ne _ _ _ hk,
           fun hnd => regFind_regDelete_self _ _ hnd⟩

/-- C10 witness: disposing `allocA` in the two-allocation state returns
`allocA` unchanged, leaves the entry of `dirB` unchanged, and removes the
entry of `dirA`. -/
theorem C10_dispose_registry_frame_witness :
    ((TempDirectory.dispose allocA stAB noFaults).1 = allocA) ∧
    (regFind (TempDirectory.dispose allocA stAB noFaults).2.registry dirB =
      regFind stAB.registry dirB) ∧
    (regFind (TempDirectory.dispose allocA stAB noFaults).2.registry dirA = none) :=
  ⟨(C10_dispose_registry_frame allocA stAB noFaults).1,
   (C10_dispose_registry_frame allocA stAB noFaults).2.1 dirB (by decide),
   (C10_dispose_registry_frame allocA stAB noFaults).2.2 (by decide)⟩

/-- C2 (evaluation at the failing input): the registry filter of
`_getTmpDirsList` looks up the bare entry name in `USED_TEMP_DIRS`, whose
keys are full absolute paths, so a directory this process currently holds
is NOT excluded from the candidate list: with both `worker-a` and
`worker-b` registered under their full paths, the computed candidate list
still contains both names, although the claim requires it to be empty. -/
theorem C2_registry_filter_ineffective :
    TempDirectory.getTmpDirsList allocA stAB noFaults =
      Except.ok ["worker-a", "worker-b"] ∧
    (regFind stAB.registry (pathJoin TESTCAFE_TMP_DIRS_ROOT "worker-a")).isSome = true ∧
    (regFind stAB.registry (pathJoin TESTCAFE_TMP_DIRS_ROOT "worker-b")).isSome = true := by
  refine ⟨?_, by decide, by decide⟩
  decide

/-- C3 counterexample: with only the directory listing failing (the pool
root is created fine and the fresh-directory creation would succeed),
`init` still rejects — the filesystem error of the candidate scan is NOT
caught, contradicting the claim that allocation rejects only when creating
the pool root or the fresh fallback directory fails. -/
theorem C3_counterexample_scan_error_aborts :
    (TempDirectory.init tWorker stEmpty faultsReadDir).1 = Except.error () ∧
    faultsReadDir.ensureRootErr = false ∧
    faultsReadDir.ensureNewDirErr = false := by
  refine ⟨?_, rfl, rfl⟩
  decide

/-- C3 amended: `init` rejects if and only if creating the pool root fails,
or the directory listing (`readDir`) of the candidate scan fails, or no
candidate was claimed and creating the fresh fallback directory fails.  In
particular every error of a lock attempt (`openErr`) is caught and never
aborts the allocation by itself, but a `readDir` error does propagate. -/
theorem C3_amended_rejection_characterization :
    ∀ (t : TempDirectory) (st : ProcState) (f : Faults),
      (TempDirectory.init t st f).1 = Except.error () ↔
        (f.ensureRootErr = true ∨ f.readDirErr = true ∨
         (f.ensureNewDirErr = true ∧
          TempDirectory.findFreeTmpDir t (poolFs st.fs) f (candidateNames t st) = none)) := by
  intro t st f
  by_cases h0 : f.ensureRootErr = true
  · rw [init_err_root t st f h0]
    simp [h0]
  · have h0f : f.ensureRootErr = false := by revert h0; cases f.ensureRootErr <;> simp
    by_cases h1 : f.readDirErr = true
    · rw [init_err_readDir t st f h0f h1]
      simp [h1]
    · have h1f : f.readDirErr = false := by revert h1; cases f.readDirErr <;> simp
      rw [init_run t st f h0f h1f]
      cases hf : TempDirectory.findFreeTmpDir t (poolFs st.fs) f (candidateNames t st) with
      | some r =>
        obtain ⟨t1, fs1⟩ := r
        simp [h0f, h1f]
      | none =>
        by_cases h2 : f.ensureNewDirErr = true
        · rw [createNewTmpDir_err t (poolFs st.fs) f h2]
          simp [h0f, h1f, h2]
        · have h2f : f.ensureNewDirErr = false := by
            revert h2; cases f.ensureNewDirErr <;> simp
          rw [createNewTmpDir_ok t (poolFs st.fs) f h2f]
          simp [h0f, h1f, h2f]

theorem lockInit_snd_dirs (lf : LockFile) (fs : FsState) (e : Bool) :
    (LockFile.init lf fs e).2.dirs = fs.dirs := by
  by_cases h1 : e = false
  · by_cases h2 : lf.path ∈ fs.files
    · rw [lockInit_fail _ _ _ (Or.inr h2)]
    · rw [lockInit_succ _ _ _ h1 h2]
  · rw [lockInit_fail _ _ _ (Or.inl (by revert h1; cases e <;> simp))]

/-- C7: the candidate scan tries the candidates exactly in listing order and
stops at the first one whose lock acquisition succeeds (conjunct 1:
`findFreeTmpDir` claims exactly the first free candidate of its input
list, for every list); and when the computed candidate list has a free
candidate `c`, `init` claims that existing directory: it returns the
allocation with `this.path` set to `c`'s full path, creates only `c`'s lock
marker, and creates no new directory (`dirs` is unchanged). -/
theorem C7_first_free_candidate_claimed :
    ∀ (t : TempDirectory) (st : ProcState) (f : Faults) (c : String),
      f.ensureRootErr = false →
      f.readDirErr = false →
      firstFreeName (poolFs st.fs) f (candidateNames t st) = some c →
      ((∀ (fs2 : FsState) (names : List String),
         TempDirectory.findFreeTmpDir t fs2 f names =
           (firstFreeName fs2 f names).map (fun d =>
             ({ t with path := pathJoin TESTCAFE_TMP_DIRS_ROOT d,
                       lockFile := some (LockFile.ofDir (pathJoin TESTCAFE_TMP_DIRS_ROOT d)) },
              { fs2 with files := markerName d :: fs2.files,
                         owned := markerName d :: fs2.owned }))) ∧
       (TempDirectory.init t st f).1 =
         Except.ok { t with path := pathJoin TESTCAFE_TMP_DIRS_ROOT c,
                            lockFile := some (LockFile.ofDir (pathJoin TESTCAFE_TMP_DIRS_ROOT c)) } ∧
       (TempDirectory.init t st f).2.fs.dirs = st.fs.dirs ∧
       (TempDirectory.init t st f).2.fs.files = markerName c :: st.fs.files) := by
  intro t st f c h0 h1 hc
  refine ⟨fun fs2 names => findFree_eq_firstFree t fs2 f names, ?_, ?_, ?_⟩ <;>
    rw [init_run t st f h0 h1, findFree_eq_firstFree, hc] <;> rfl

/-- C7 witness: with `worker-a` and `worker-b` present and unlocked and an
empty registry, `init` for the `"worker"` filter claims `worker-a` (the
first listed candidate), changes no directory, and creates exactly its
marker. -/
theorem C7_first_free_candidate_claimed_witness :
    (TempDirectory.init tWorker stScan noFaults).1 =
      Except.ok { tWorker with path := pathJoin TESTCAFE_TMP_DIRS_ROOT "worker-a",
                               lockFile := some (LockFile.ofDir (pathJoin TESTCAFE_TMP_DIRS_ROOT "worker-a")) } ∧
    (TempDirectory.init tWorker stScan noFaults).2.fs.dirs = stScan.fs.dirs ∧
    (TempDirectory.init tWorker stScan noFaults).2.fs.files =
      markerName "worker-a" :: stScan.fs.files :=
  ⟨(C7_first_free_candidate_claimed tWorker stScan noFaults "worker-a" rfl rfl (by decide)).2.1,
   (C7_first_free_candidate_claimed tWorker stScan noFaults "worker-a" rfl rfl (by decide)).2.2.1,
   (C7_first_free_candidate_claimed tWorker stScan noFaults "worker-a" rfl rfl (by decide)).2.2.2⟩

/-- C8: when no candidate is claimed (the computed candidate list has no
free entry — it is empty or every entry is locked), `init` creates the
directory `namePrefix ++ "-" ++ <unique suffix>` under the pool root,
returns the allocation claiming it, registers it under its path, and
acquires a lock on it: whenever the exclusive create of the fresh marker
can succeed (no injected I/O error at it and the marker not already on
disk), the marker file is created and held by this process (it enters both
`files` and the ghost `owned`).  The first three conjuncts assume nothing
about `openErr`, so the allocation still succeeds (path populated and
registered) even when this lock acquisition fails. -/
theorem C8_fallback_fresh_directory :
    ∀ (t : TempDirectory) (st : ProcState) (f : Faults),
      f.ensureRootErr = false →
      f.readDirErr = false →
      f.ensureNewDirErr = false →
      firstFreeName (poolFs st.fs) f (candidateNames t st) = none →
      ((TempDirectory.init t st f).1 =
         Except.ok { t with path := freshTmpPath t f,
                            lockFile := some (LockFile.ofDir (freshTmpPath t f)) } ∧
       freshTmpPath t f ∈ (TempDirectory.init t st f).2.fs.dirs ∧
       regFind (TempDirectory.init t st f).2.registry (freshTmpPath t f) =
         some { t with path := freshTmpPath t f,
                       lockFile := some (LockFile.ofDir (freshTmpPath t f)) } ∧
       (f.openErr (markerOfDir (freshTmpPath t f)) = false →
        markerOfDir (freshTmpPath t f) ∉ st.fs.files →
        markerOfDir (freshTmpPath t f) ∈ (TempDirectory.init t st f).2.fs.files ∧
        markerOfDir (freshTmpPath t f) ∈ (TempDirectory.init t st f).2.fs.owned)) := by
  intro t st f h0 h1 h2 hnone
  rw [init_run t st f h0 h1, findFree_eq_firstFree, hnone]
  simp only [Option.map_none']
  rw [createNewTmpDir_ok t (poolFs st.fs) f h2]
  refine ⟨rfl, ?_, ?_, ?_⟩
  · show freshTmpPath t f ∈ (LockFile.init _ _ _).2.dirs
    rw [lockInit_snd_dirs]
    by_cases hmem : freshTmpPath t f ∈ (poolFs st.fs).dirs
    · simp [hmem]
    · simp [hmem]
  · exact regFind_regSet_self _ _ _
  · intro hoe hnf
    rw [ofDir_path, hoe]
    rw [lockInit_succ _ _ _ rfl (by exact hnf)]
    exact ⟨List.mem_cons_self _ _, List.mem_cons_self _ _⟩

/-- C8 witness, both sides of the acquisition.  Success case: from the
empty state with no faults, `init` creates `worker-11822-2222-aaaa` and
acquires its lock — the marker is on disk and held by this process.
Failure case: with the exclusive create of that marker failing
(`faultsFreshLock`), `init` still succeeds — it returns the allocation
claiming the fresh directory, the directory exists, and it is registered. -/
theorem C8_fallback_fresh_directory_witness :
    (markerOfDir (freshTmpPath tWorker noFaults) ∈
       (TempDirectory.init tWorker stEmpty noFaults).2.fs.files ∧
     markerOfDir (freshTmpPath tWorker noFaults) ∈
       (TempDirectory.init tWorker stEmpty noFaults).2.fs.owned) ∧
    ((TempDirectory.init tWorker stEmpty faultsFreshLock).1 =
       Except.ok { tWorker with
         path := freshTmpPath tWorker faultsFreshLock,
         lockFile := some (LockFile.ofDir (freshTmpPath tWorker faultsFreshLock)) } ∧
     freshTmpPath tWorker faultsFreshLock ∈
       (TempDirectory.init tWorker stEmpty faultsFreshLock).2.fs.dirs ∧
     regFind (TempDirectory.init tWorker stEmpty faultsFreshLock).2.registry
         (freshTmpPath tWorker faultsFreshLock) =
       some { tWorker with
         path := freshTmpPath tWorker faultsFreshLock,
         lockFile := some (LockFile.ofDir (freshTmpPath tWorker faultsFreshLock)) }) ∧
    faultsFreshLock.openErr (markerOfDir (freshTmpPath tWorker faultsFreshLock)) = true :=
  ⟨(C8_fallback_fresh_directory tWorker stEmpty noFaults rfl rfl rfl
      (by decide)).2.2.2 rfl (by decide),
   ⟨(C8_fallback_fresh_directory tWorker stEmpty faultsFreshLock rfl rfl rfl
       (by decide)).1,
    (C8_fallback_fresh_directory tWorker stEmpty faultsFreshLock rfl rfl rfl
       (by decide)).2.1,
    (C8_fallback_fresh_directory tWorker stEmpty faultsFreshLock rfl rfl rfl
       (by decide)).2.2.1⟩,
   by decide⟩

theorem dispose_noop (t : TempDirectory) (st : ProcState) (f : Faults)
    (h : (regFind st.registry t.path).isSome = false) :
    TempDirectory.dispose t st f = (t, st) := by
  rw [TempDirectory.dispose, if_pos h]

theorem dispose_eq_of_found (t : TempDirectory) (st : ProcState) (f : Faults)
    (h : ¬(regFind st.registry t.path).isSome = false) :
    TempDirectory.dispose t st f =
      (t, { fs := match t.lockFile with
                  | some lf => LockFile.dispose lf st.fs (f.unlinkErr lf.path)
                  | none => st.fs,
            registry := regDelete st.registry t.path }) := by
  rw [TempDirectory.dispose, if_neg h]

/-- C6 counterexample: dispose called a second time on the same allocation
is NOT always a no-op.  Claim `worker-a`, dispose it, let a second
allocation of the same process re-claim `worker-a` (the re-claim succeeds
and re-registers the path), then call dispose on the FIRST allocation
again: the second call deletes the new owner's registry entry and unlinks
its lock marker, so the registry is changed, not left unchanged. -/
theorem C6_counterexample_second_dispose_not_noop :
    ((TempDirectory.init (TempDirectory.create "worker") c6Start noFaults).1 =
       Except.ok allocA) ∧
    ((TempDirectory.init (TempDirectory.create "worker") c6AfterFirstDispose noFaults).1 =
       Except.ok allocA) ∧
    (regFind c6AfterSecondAlloc.registry dirA).isSome = true ∧
    markerOfDir dirA ∈ c6AfterSecondAlloc.fs.files ∧
    (TempDirectory.dispose allocA c6AfterSecondAlloc noFaults).2.registry ≠
      c6AfterSecondAlloc.registry ∧
    (TempDirectory.dispose allocA c6AfterSecondAlloc noFaults).2.registry = [] ∧
    markerOfDir dirA ∉
      (TempDirectory.dispose allocA c6AfterSecondAlloc noFaults).2.fs.files := by
  refine ⟨?_, ?_, ?_, ?_, ?_, ?_, ?_⟩ <;> decide

/-- C6 amended: lock release is idempotent and never throws — when the
marker file is already gone, `LockFile.dispose` is a no-op on the
filesystem (conjunct 1); `TempDirectory.dispose` on an allocation whose
path is not currently registered is a complete no-op (conjunct 2); and
hence an immediately repeated `dispose` (no re-registration of the path in
between) is a no-op (conjunct 3, for a registry with distinct keys).  The
unqualified claim fails when another allocation re-registers the same path
between the two calls (see the counterexample). -/
theorem C6_amended_release_idempotent :
    (∀ (lf : LockFile) (fs : FsState) (ioErr : Bool),
       lf.path ∉ fs.files → LockFile.dispose lf fs ioErr = fs) ∧
    (∀ (t : TempDirectory) (st : ProcState) (f : Faults),
       regFind st.registry t.path = none → TempDirectory.dispose t st f = (t, st)) ∧
    (∀ (t : TempDirectory) (st : ProcState) (f : Faults),
       (regKeys st.registry).Nodup →
       TempDirectory.dispose t (TempDirectory.dispose t st f).2 f =
         (t, (TempDirectory.dispose t st f).2)) := by
  refine ⟨?_, ?_, ?_⟩
  · intro lf fs ioErr h
    cases hi : ioErr <;> simp [LockFile.dispose, unlinkSync, h]
  · intro t st f h
    exact dispose_noop t st f (by rw [h]; rfl)
  · intro t st f hnd
    have key : (regFind (TempDirectory.dispose t st f).2.registry t.path).isSome = false := by
      by_cases h : (regFind st.registry t.path).isSome = false
      · rw [dispose_noop t st f h]
        exact h
      · rw [dispose_eq_of_found t st f h]
        simp [regFind_regDelete_self st.registry t.path hnd]
    exact dispose_noop _ _ _ key

/-- C6 amended witness: disposing `allocA` twice in a row in the
two-allocation state: the second call is a no-op, and releasing a lock
whose marker is gone leaves the filesystem unchanged. -/
theorem C6_amended_release_idempotent_witness :
    (LockFile.dispose (LockFile.ofDir dirA) { rootExists := true } false =
      { rootExists := true }) ∧
    (TempDirectory.dispose allocA
        (TempDirectory.dispose allocA stAB noFaults).2 noFaults =
      (allocA, (TempDirectory.dispose allocA stAB noFaults).2)) :=
  ⟨C6_amended_release_idempotent.1 (LockFile.ofDir dirA) { rootExists := true } false
     (by decide),
   C6_amended_release_idempotent.2.2 allocA stAB noFaults (by decide)⟩

theorem lockDispose_eq_erase (lf : LockFile) (fs : FsState) (hm : lf.path ∈ fs.files) :
    LockFile.dispose lf fs false =
      { fs with files := fs.files.filter (fun q => q != lf.path),
                owned := fs.owned.filter (fun q => q != lf.path) } := by
  simp [LockFile.dispose, unlinkSync, hm]

theorem lockDispose_eq_self_of_err (lf : LockFile) (fs : FsState) :
    LockFile.dispose lf fs true = fs := by
  simp [LockFile.dispose, unlinkSync]

theorem lockDispose_eq_self_of_missing (lf : LockFile) (fs : FsState) (e : Bool)
    (hm : lf.path ∉ fs.files) : LockFile.dispose lf fs e = fs := by
  cases e
  · simp [LockFile.dispose, unlinkSync, hm]
  · simp [LockFile.dispose, unlinkSync]

theorem lockDispose_dirs (lf : LockFile) (fs : FsState) (e : Bool) :
    (LockFile.dispose lf fs e).dirs = fs.dirs := by
  cases e
  · by_cases hm : lf.path ∈ fs.files
    · rw [lockDispose_eq_erase lf fs hm]
    · rw [lockDispose_eq_self_of_missing lf fs false hm]
  · rw [lockDispose_eq_self_of_err]

theorem lockDispose_rootExists (lf : LockFile) (fs : FsState) (e : Bool) :
    (LockFile.dispose lf fs e).rootExists = fs.rootExists := by
  cases e
  · by_cases hm : lf.path ∈ fs.files
    · rw [lockDispose_eq_erase lf fs hm]
    · rw [lockDispose_eq_self_of_missing lf fs false hm]
  · rw [lockDispose_eq_self_of_err]

theorem lockDispose_files_mono (lf : LockFile) (fs : FsState) (e : Bool) (x : String)
    (h : x ∈ (LockFile.dispose lf fs e).files) : x ∈ fs.files := by
  revert h
  cases e
  · by_cases hm : lf.path ∈ fs.files
    · rw [lockDispose_eq_erase lf fs hm]
      intro h
      exact (List.mem_filter.1 h).1
    · rw [lockDispose_eq_self_of_missing lf fs false hm]
      exact fun h => h
  · rw [lockDispose_eq_self_of_err]
    exact fun h => h

theorem lockDispose_not_mem_self (lf : LockFile) (fs : FsState) :
    lf.path ∉ (LockFile.dispose lf fs false).files := by
  by_cases hm : lf.path ∈ fs.files
  · rw [lockDispose_eq_erase lf fs hm]
    intro h
    have := (List.mem_filter.1 h).2
    simp at this
  · rw [lockDispose_eq_self_of_missing lf fs false hm]
    exact hm

theorem dispose_registry_eq (t : TempDirectory) (st : ProcState) (f : Faults) :
    (TempDirectory.dispose t st f).2.registry = regDelete st.registry t.path := by
  by_cases h : (regFind st.registry t.path).isSome = false
  · rw [dispose_noop t st f h]
    have hnm : t.path ∉ regKeys st.registry := by
      intro hm
      rw [(regFind_isSome_iff st.registry t.path).2 hm] at h
      exact Bool.noConfusion h
    rw [regDelete_of_not_mem st.registry t.path hnm]
  · rw [dispose_eq_of_found t st f h]

theorem dispose_dirs (t : TempDirectory) (st : ProcState) (f : Faults) :
    (TempDirectory.dispose t st f).2.fs.dirs = st.fs.dirs := by
  by_cases h : (regFind st.registry t.path).isSome = false
  · rw [dispose_noop t st f h]
  · rw [dispose_eq_of_found t st f h]
    cases t.lockFile with
    | none => rfl
    | some lf => exact lockDispose_dirs lf st.fs _

theorem dispose_files_mono (t : TempDirectory) (st : ProcState) (f : Faults) (x : String)
    (h : x ∈ (TempDirectory.dispose t st f).2.fs.files) : x ∈ st.fs.files := by
  by_cases hp : (regFind st.registry t.path).isSome = false
  · rw [dispose_noop t st f hp] at h
    exact h
  · rw [dispose_eq_of_found t st f hp] at h
    revert h
    cases t.lockFile with
    | none => exact fun h => h
    | some lf => exact lockDispose_files_mono lf st.fs _ x

theorem foldDispose_dirs (vs : List TempDirectory) (s : ProcState) (f : Faults) :
    (vs.foldl (fun s2 tmpDir => (TempDirectory.dispose tmpDir s2 f).2) s).fs.dirs =
      s.fs.dirs := by
  induction vs generalizing s with
  | nil => rfl
  | cons v rest ih =>
    rw [List.foldl_cons, ih, dispose_dirs]

theorem foldDispose_files_mono (vs : List TempDirectory) (s : ProcState) (f : Faults)
    (x : String)
    (h : x ∈ (vs.foldl (fun s2 tmpDir => (TempDirectory.dispose tmpDir s2 f).2) s).fs.files) :
    x ∈ s.fs.files := by
  induction vs generalizing s with
  | nil => exact h
  | cons v rest ih =>
    rw [List.foldl_cons] at h
    exact dispose_files_mono v s f x (ih _ h)

theorem disposeAll_aux (vs : List TempDirectory) (s : ProcState) (f : Faults)
    (hwf : regWF s.registry)
    (hvs : s.registry.map Prod.snd = vs)
    (hul : ∀ p, f.unlinkErr p = false) :
    (vs.foldl (fun s2 tmpDir => (TempDirectory.dispose tmpDir s2 f).2) s).registry = [] ∧
    (vs.foldl (fun s2 tmpDir => (TempDirectory.dispose tmpDir s2 f).2) s).fs.dirs =
      s.fs.dirs ∧
    ∀ kv ∈ s.registry, markerOfDir kv.1 ∉
      (vs.foldl (fun s2 tmpDir => (TempDirectory.dispose tmpDir s2 f).2) s).fs.files := by
  induction vs generalizing s with
  | nil =>
    have hreg : s.registry = [] := List.map_eq_nil_iff.1 hvs
    refine ⟨hreg, rfl, ?_⟩
    rw [hreg]
    intro kv hkv
    cases hkv
  | cons v rest ih =>
    cases hr : s.registry with
    | nil => rw [hr] at hvs; cases hvs
    | cons hd tl =>
      obtain ⟨k, w⟩ := hd
      rw [hr, List.map_cons] at hvs
      injection hvs with hw htl
      rw [hr] at hwf
      obtain ⟨hnd, hent⟩ := hwf
      have hkv : v.path = k ∧ v.lockFile = some (LockFile.ofDir k) := by
        have hh := hent (k, w) (List.mem_cons_self _ _)
        rw [hw] at hh
        exact hh
      have hfound : ¬(regFind s.registry v.path).isSome = false := by
        rw [hr, hkv.1]
        simp [regFind]
      have hs1reg : (TempDirectory.dispose v s f).2.registry = tl := by
        rw [dispose_registry_eq, hr, hkv.1]
        simp [regDelete]
      have hs1fs : (TempDirectory.dispose v s f).2.fs =
          LockFile.dispose (LockFile.ofDir k) s.fs (f.unlinkErr (LockFile.ofDir k).path) := by
        rw [dispose_eq_of_found v s f hfound, hkv.2]
      have hwf1 : regWF (TempDirectory.dispose v s f).2.registry := by
        rw [hs1reg]
        refine ⟨(List.nodup_cons.1 hnd).2, ?_⟩
        intro kv2 hkv2
        exact hent kv2 (List.mem_cons_of_mem _ hkv2)
      have hvs1 : (TempDirectory.dispose v s f).2.registry.map Prod.snd = rest := by
        rw [hs1reg]; exact htl
      obtain ⟨ihreg, ihdirs, ihmark⟩ := ih (TempDirectory.dispose v s f).2 hwf1 hvs1
      rw [List.foldl_cons]
      refine ⟨ihreg, by rw [ihdirs, dispose_dirs], ?_⟩
      intro kv2 hkv2
      cases hkv2 with
      | head =>
        intro hmem
        have hmem1 := foldDispose_files_mono rest (TempDirectory.dispose v s f).2 f _ hmem
        rw [hs1fs] at hmem1
        rw [hul (LockFile.ofDir k).path] at hmem1
        exact lockDispose_not_mem_self (LockFile.ofDir k) s.fs hmem1
      | tail _ hkv3 =>
        exact ihmark kv2 (by rw [hs1reg]; exact hkv3)

/-- C9: `disposeDirectories` (the exit hook / releaseAll) empties the
process-wide registry, deletes the lock marker of every registered
allocation, and leaves the allocated directories themselves on disk
(`dirs` unchanged) — for any well-formed registry and fault-free release. -/
theorem C9_disposeDirectories_releases_all :
    ∀ (st : ProcState) (f : Faults),
      regWF st.registry →
      (∀ p, f.unlinkErr p = false) →
      ((TempDirectory.disposeDirectories st f).registry = [] ∧
       (TempDirectory.disposeDirectories st f).fs.dirs = st.fs.dirs ∧
       ∀ kv ∈ st.registry,
         markerOfDir kv.1 ∉ (TempDirectory.disposeDirectories st f).fs.files) := by
  intro st f hwf hul
  exact disposeAll_aux (st.registry.map Prod.snd) st f hwf rfl hul

/-- C9 witness: in the two-allocation state, `disposeDirectories` empties
the registry, keeps both directories, and removes both markers. -/
theorem C9_disposeDirectories_releases_all_witness :
    (TempDirectory.disposeDirectories stAB noFaults).registry = [] ∧
    (TempDirectory.disposeDirectories stAB noFaults).fs.dirs = stAB.fs.dirs ∧
    ∀ kv ∈ stAB.registry,
      markerOfDir kv.1 ∉ (TempDirectory.disposeDirectories stAB noFaults).fs.files :=
  C9_disposeDirectories_releases_all stAB noFaults (by decide) (fun p => rfl)

theorem fst_ne_of_mem_regDelete (reg : List (String × TempDirectory)) (k : String)
    (kv : String × TempDirectory) (hnd : (regKeys reg).Nodup)
    (hm : kv ∈ regDelete reg k) : kv.1 ≠ k := by
  intro he
  have hh := mem_regKeys_of_mem hm
  rw [he] at hh
  exact not_mem_regKeys_regDelete_self reg k hnd hh

theorem inv_extend (st : ProcState) (K : String) (t1 : TempDirectory)
    (hinv : registryLockInv st)
    (hK : markerOfDir K ∉ st.fs.files)
    (st1 : ProcState)
    (hreg : st1.registry = regSet st.registry K t1)
    (hfiles : st1.fs.files = markerOfDir K :: st.fs.files)
    (howned : st1.fs.owned = markerOfDir K :: st.fs.owned) :
    registryLockInv st1 := by
  obtain ⟨hnd, h1, h2, h3⟩ := hinv
  have hKnot : K ∉ regKeys st.registry := by
    intro hm
    obtain ⟨v, hv⟩ := exists_of_mem_regKeys hm
    exact hK (h3 _ (h1 (K, v) hv))
  have hset : regSet st.registry K t1 = st.registry ++ [(K, t1)] :=
    regSet_of_not_mem _ _ _ hKnot
  have hkeys : regKeys (st.registry ++ [(K, t1)]) = regKeys st.registry ++ [K] := by
    simp [regKeys]
  refine ⟨?_, ?_, ?_, ?_⟩
  · rw [hreg, hset, hkeys]
    refine List.Nodup.append hnd (List.nodup_singleton K) ?_
    intro x hx hx2
    rw [List.mem_singleton] at hx2
    subst hx2
    exact hKnot hx
  · intro kv hkv
    rw [hreg, hset] at hkv
    rw [howned]
    rcases List.mem_append.1 hkv with hold | hnew
    · exact List.mem_cons_of_mem _ (h1 kv hold)
    · rw [List.mem_singleton] at hnew
      subst hnew
      exact List.mem_cons_self _ _
  · intro m hm
    rw [howned] at hm
    rw [hreg, hset]
    rcases List.mem_cons.1 hm with hhead | htail
    · subst hhead
      exact ⟨(K, t1), List.mem_append_right _ (List.mem_singleton_self _), rfl⟩
    · obtain ⟨kv, hkv, he⟩ := h2 m htail
      exact ⟨kv, List.mem_append_left _ hkv, he⟩
  · intro m hm
    rw [howned] at hm
    rw [hfiles]
    rcases List.mem_cons.1 hm with hhead | htail
    · subst hhead
      exact List.mem_cons_self _ _
    · exact List.mem_cons_of_mem _ (h3 m htail)

theorem inv_dispose (t : TempDirectory) (st : ProcState) (f : Faults)
    (hinv : registryLockInv st)
    (hlf : t.lockFile = some (LockFile.ofDir t.path))
    (hul : f.unlinkErr (markerOfDir t.path) = false) :
    registryLockInv (TempDirectory.dispose t st f).2 := by
  by_cases hp : (regFind st.registry t.path).isSome = false
  · rw [dispose_noop t st f hp]
    exact hinv
  · obtain ⟨hnd, h1, h2, h3⟩ := hinv
    have hkey : t.path ∈ regKeys st.registry := by
      apply (regFind_isSome_iff st.registry t.path).1
      revert hp
      cases (regFind st.registry t.path).isSome <;> simp
    obtain ⟨v, hv⟩ := exists_of_mem_regKeys hkey
    have hmo : markerOfDir t.path ∈ st.fs.owned := h1 (t.path, v) hv
    have hmf : markerOfDir t.path ∈ st.fs.files := h3 _ hmo
    rw [dispose_eq_of_found t st f hp]
    rw [hlf]
    dsimp only
    have hulp : f.unlinkErr (LockFile.ofDir t.path).path = false := hul
    rw [hulp, lockDispose_eq_erase (LockFile.ofDir t.path) st.fs hmf]
    refine ⟨?_, ?_, ?_, ?_⟩
    · exact regKeys_nodup_regDelete _ _ hnd
    · intro kv hkv
      have hne : kv.1 ≠ t.path := fst_ne_of_mem_regDelete _ _ _ hnd hkv
      have hmem : markerOfDir kv.1 ∈ st.fs.owned :=
        h1 kv (mem_of_mem_regDelete _ _ _ hkv)
      apply List.mem_filter.2
      refine ⟨hmem, ?_⟩
      apply bne_iff_ne.2
      intro he
      exact hne (markerOfDir_inj _ _ he)
    · intro m hm
      obtain ⟨hmem, hbne⟩ := List.mem_filter.1 hm
      have hne : m ≠ markerOfDir t.path := bne_iff_ne.1 hbne
      obtain ⟨kv, hkv, he⟩ := h2 m hmem
      refine ⟨kv, ?_, he⟩
      apply mem_regDelete_of_ne _ _ _ hkv
      intro hee
      exact hne (by rw [he, hee])
    · intro m hm
      obtain ⟨hmem, hbne⟩ := List.mem_filter.1 hm
      apply List.mem_filter.2
      exact ⟨h3 m hmem, hbne⟩

theorem inv_foldDispose (vs : List TempDirectory) (s : ProcState) (f : Faults)
    (hinv : registryLockInv s)
    (hvs : ∀ v ∈ vs, v.lockFile = some (LockFile.ofDir v.path))
    (hul : ∀ p, f.unlinkErr p = false) :
    registryLockInv
      (vs.foldl (fun s2 tmpDir => (TempDirectory.dispose tmpDir s2 f).2) s) := by
  induction vs generalizing s with
  | nil => exact hinv
  | cons v rest ih =>
    rw [List.foldl_cons]
    exact ih (TempDirectory.dispose v s f).2
      (inv_dispose v s f hinv (hvs v (List.mem_cons_self _ _)) (hul _))
      (fun w hw => hvs w (List.mem_cons_of_mem _ hw))

theorem inv_init (t : TempDirectory) (st : ProcState) (f : Faults)
    (hinv : registryLockInv st)
    (hoe : f.openErr (markerOfDir (freshTmpPath t f)) = false)
    (hff : markerOfDir (freshTmpPath t f) ∉ st.fs.files) :
    registryLockInv (TempDirectory.init t st f).2 := by
  by_cases h0 : f.ensureRootErr = true
  · rw [init_err_root t st f h0]
    exact hinv
  · have h0f : f.ensureRootErr = false := by revert h0; cases f.ensureRootErr <;> simp
    by_cases h1 : f.readDirErr = true
    · rw [init_err_readDir t st f h0f h1]
      exact hinv
    · have h1f : f.readDirErr = false := by revert h1; cases f.readDirErr <;> simp
      rw [init_run t st f h0f h1f]
      rw [findFree_eq_firstFree]
      cases hcc : firstFreeName (poolFs st.fs) f (candidateNames t st) with
      | some c =>
        rw [Option.map_some']
        dsimp only
        apply inv_extend st (pathJoin TESTCAFE_TMP_DIRS_ROOT c)
          { t with path := pathJoin TESTCAFE_TMP_DIRS_ROOT c,
                   lockFile := some (LockFile.ofDir (pathJoin TESTCAFE_TMP_DIRS_ROOT c)) }
          hinv (firstFreeName_some_spec _ _ _ _ hcc).2.2 _ rfl rfl rfl
      | none =>
        rw [Option.map_none']
        by_cases h2 : f.ensureNewDirErr = true
        · rw [createNewTmpDir_err t (poolFs st.fs) f h2]
          exact hinv
        · have h2f : f.ensureNewDirErr = false := by
            revert h2; cases f.ensureNewDirErr <;> simp
          rw [createNewTmpDir_ok t (poolFs st.fs) f h2f]
          dsimp only
          rw [ofDir_path, hoe]
          rw [lockInit_succ _ _ _ rfl (by exact hff)]
          apply inv_extend st (freshTmpPath t f)
            { t with path := freshTmpPath t f,
                     lockFile := some (LockFile.ofDir (freshTmpPath t f)) }
            hinv hff _ rfl rfl rfl

/-- C4 counterexample: when the lock acquisition on the fresh fallback
directory fails (injected `openErr`), `init` still registers the directory
(C8), so its path is a key of the registry while this process does NOT
hold its lock — the marker was never created (`owned` misses it), and the
registry/lock invariant is violated. -/
theorem C4_counterexample_registered_without_lock :
    (regFind (TempDirectory.init tWorker stEmpty faultsFreshLock).2.registry
       (freshTmpPath tWorker faultsFreshLock)).isSome = true ∧
    markerOfDir (freshTmpPath tWorker faultsFreshLock) ∉
      (TempDirectory.init tWorker stEmpty faultsFreshLock).2.fs.owned ∧
    ¬ registryLockInv (TempDirectory.init tWorker stEmpty faultsFreshLock).2 := by
  refine ⟨?_, ?_, ?_⟩ <;> decide

/-- C4 amended: the registry/lock invariant — a path is a key of the
process-wide registry exactly when this process holds that directory's
lock (created its marker, not yet released), together with the bookkeeping
in `registryLockInv` — is preserved by every operation, PROVIDED the lock
acquisition on a fresh fallback directory succeeds (its marker is free and
its exclusive create does not fail) and lock release does not fail:
conjunct 1 for `init` (any outcome, success or rejection), conjunct 2 for
`dispose`, conjunct 3 for `disposeDirectories`.  Without the proviso the
invariant fails (see the counterexample). -/
theorem C4_amended_registry_lock_invariant :
    (∀ (t : TempDirectory) (st : ProcState) (f : Faults),
       registryLockInv st →
       f.openErr (markerOfDir (freshTmpPath t f)) = false →
       markerOfDir (freshTmpPath t f) ∉ st.fs.files →
       registryLockInv (TempDirectory.init t st f).2) ∧
    (∀ (t : TempDirectory) (st : ProcState) (f : Faults),
       registryLockInv st →
       t.lockFile = some (LockFile.ofDir t.path) →
       f.unlinkErr (markerOfDir t.path) = false →
       registryLockInv (TempDirectory.dispose t st f).2) ∧
    (∀ (st : ProcState) (f : Faults),
       registryLockInv st →
       (∀ kv ∈ st.registry, kv.2.lockFile = some (LockFile.ofDir kv.2.path)) →
       (∀ p, f.unlinkErr p = false) →
       registryLockInv (TempDirectory.disposeDirectories st f)) :=
  ⟨inv_init, inv_dispose,
   fun st f hinv hwf hul =>
     inv_foldDispose (st.registry.map Prod.snd) st f hinv
       (fun v hv => by
         obtain ⟨kv, hkv, he⟩ := List.mem_map.1 hv
         rw [← he]
         exact hwf kv hkv)
       hul⟩

/-- C4 amended witness: starting from the registry/lock invariant in the
two-allocation state, a fault-free allocation, a dispose of `allocA`, and a
full `disposeDirectories` each preserve the invariant. -/
theorem C4_amended_registry_lock_invariant_witness :
    registryLockInv (TempDirectory.init tWorker stAB noFaults).2 ∧
    registryLockInv (TempDirectory.dispose allocA stAB noFaults).2 ∧
    registryLockInv (TempDirectory.disposeDirectories stAB noFaults) :=
  ⟨C4_amended_registry_lock_invariant.1 tWorker stAB noFaults (by decide) rfl (by decide),
   C4_amended_registry_lock_invariant.2.1 allocA stAB noFaults (by decide) rfl rfl,
   C4_amended_registry_lock_invariant.2.2 stAB noFaults (by decide) (by decide)
     (fun p => rfl)⟩

namespace TwoProc

theorem okP_mono (ps : PState) (files files2 : List String)
    (hsub : ∀ x ∈ files, x ∈ files2) (h : okP ps files) : okP ps files2 :=
  fun hacq =>
    let ⟨p, hp, hm⟩ := h hacq
    ⟨p, hp, hsub _ hm⟩

theorem stepP_spec (ps : PState) (dirs files : List String) (hok : okP ps files) :
    okP (stepP ps dirs files).1 (stepP ps dirs files).2.2 ∧
    (∀ x ∈ files, x ∈ (stepP ps dirs files).2.2) ∧
    (∀ p, (stepP ps dirs files).1.lockAcquired = true →
      (stepP ps dirs files).1.phase = Phase.done p →
      (ps.lockAcquired = true ∧ ps.phase = Phase.done p) ∨
      (markerOfDir p ∉ files ∧ markerOfDir p ∈ (stepP ps dirs files).2.2)) := by
  cases hph : ps.phase with
  | start =>
    simp only [stepP, hph]
    refine ⟨?_, fun x hx => hx, ?_⟩
    · intro hacq
      obtain ⟨p, hp, hm⟩ := hok hacq
      rw [hph] at hp
      cases hp
    · intro p hacq hdone
      cases hdone
  | scan cands =>
    cases cands with
    | nil =>
      simp only [stepP, hph]
      refine ⟨?_, fun x hx => hx, ?_⟩
      · intro hacq
        obtain ⟨p, hp, hm⟩ := hok hacq
        rw [hph] at hp
        cases hp
      · intro p hacq hdone
        cases hdone
    | cons c rest =>
      by_cases hmem : markerOfDir (pathJoin TESTCAFE_TMP_DIRS_ROOT c) ∈ files
      · simp only [stepP, hph, if_pos hmem]
        refine ⟨?_, fun x hx => hx, ?_⟩
        · intro hacq
          obtain ⟨p, hp, hm⟩ := hok hacq
          rw [hph] at hp
          cases hp
        · intro p hacq hdone
          cases hdone
      · simp only [stepP, hph, if_neg hmem]
        refine ⟨?_, fun x hx => List.mem_cons_of_mem _ hx, ?_⟩
        · intro hacq
          exact ⟨pathJoin TESTCAFE_TMP_DIRS_ROOT c, rfl, List.mem_cons_self _ _⟩
        · intro p hacq hdone
          cases hdone
          exact Or.inr ⟨hmem, List.mem_cons_self _ _⟩
  | madeDir q =>
    by_cases hmem : markerOfDir q ∈ files
    · simp only [stepP, hph, if_pos hmem]
      refine ⟨?_, fun x hx => hx, ?_⟩
      · intro hacq
        obtain ⟨p, hp, hm⟩ := hok hacq
        rw [hph] at hp
        cases hp
      · intro p hacq hdone
        obtain ⟨p2, hp2, hm2⟩ := hok hacq
        rw [hph] at hp2
        cases hp2
    · simp only [stepP, hph, if_neg hmem]
      refine ⟨?_, fun x hx => List.mem_cons_of_mem _ hx, ?_⟩
      · intro hacq
        exact ⟨q, rfl, List.mem_cons_self _ _⟩
      · intro p hacq hdone
        cases hdone
        exact Or.inr ⟨hmem, List.mem_cons_self _ _⟩
  | done q =>
    simp only [stepP, hph]
    refine ⟨?_, fun x hx => hx, ?_⟩
    · intro hacq
      obtain ⟨p, hp, hm⟩ := hok hacq
      exact ⟨p, by rw [hph] at hp ⊢; exact hp, hm⟩
    · intro p hacq hdone
      exact Or.inl ⟨hacq, hdone⟩

theorem step_preserves_inv (s : SysState) (w : Bool) (hinv : SysInv s) :
    SysInv (step s w) := by
  obtain ⟨hok1, hok2, hex⟩ := hinv
  cases w
  · obtain ⟨ha, hmono, hthird⟩ := stepP_spec s.proc1 s.dirs s.files hok1
    have hst : step s false =
        { s with proc1 := (stepP s.proc1 s.dirs s.files).1,
                 dirs := (stepP s.proc1 s.dirs s.files).2.1,
                 files := (stepP s.proc1 s.dirs s.files).2.2 } := by
      simp [step]
    rw [hst]
    refine ⟨ha, okP_mono _ _ _ hmono hok2, ?_⟩
    intro p q hacq1 hacq2 hph1 hph2
    rcases hthird p hacq1 hph1 with ⟨hac, hdone⟩ | ⟨hnot, _⟩
    · exact hex p q hac hacq2 hdone hph2
    · intro he
      subst he
      obtain ⟨q2, hq2, hm⟩ := hok2 hacq2
      rw [hph2] at hq2
      cases hq2
      exact hnot hm
  · obtain ⟨ha, hmono, hthird⟩ := stepP_spec s.proc2 s.dirs s.files hok2
    have : step s true =
        { s with proc2 := (stepP s.proc2 s.dirs s.files).1,
                 dirs := (stepP s.proc2 s.dirs s.files).2.1,
                 files := (stepP s.proc2 s.dirs s.files).2.2 } := by
      simp [step]
    rw [this]
    refine ⟨okP_mono _ _ _ hmono hok1, ha, ?_⟩
    intro p q hacq1 hacq2 hph1 hph2
    rcases hthird q hacq2 hph2 with ⟨hac, hdone⟩ | ⟨hnot, _⟩
    · exact hex p q hacq1 hac hph1 hdone
    · intro he
      subst he
      obtain ⟨p2, hp2, hm⟩ := hok1 hacq1
      rw [hph1] at hp2
      cases hp2
      exact hnot hm

theorem run_preserves_inv (ws : List Bool) (s : SysState) (hinv : SysInv s) :
    SysInv (run s ws) := by
  induction ws generalizing s with
  | nil => exact hinv
  | cons w rest ih => exact ih (step s w) (step_preserves_inv s w hinv)

end TwoProc

/-- C1 counterexample: two processes can BOTH succeed with the same path.
Process 1 creates the fresh directory `worker-a1b2` (tmpName + ensureDir);
before its separate lock-`init` step runs, process 2 lists the pool root,
sees the new directory and wins its exclusive-create; process 1's `init`
then fails, is swallowed, and process 1 still completes with the same
`this.path` — two live processes now hold the same directory, refuting
`A.path != B.path` for successful allocations. -/
theorem C1_counterexample_both_win_same_directory :
    (TwoProc.run c1Race c1Sched).proc1.phase =
      TwoProc.Phase.done (pathJoin TESTCAFE_TMP_DIRS_ROOT "worker-a1b2") ∧
    (TwoProc.run c1Race c1Sched).proc2.phase =
      TwoProc.Phase.done (pathJoin TESTCAFE_TMP_DIRS_ROOT "worker-a1b2") := by
  refine ⟨?_, ?_⟩ <;> decide

/-- C1 amended: mutual exclusion holds for every allocation whose lock
acquisition actually succeeded: in every interleaving of the two processes
(starting with neither holding a lock), if both processes finish with
`lockAcquired`, their paths differ.  The unqualified claim fails only
through the fresh-directory window in which a process keeps a path whose
lock `init` failed (see the counterexample). -/
theorem C1_amended_mutual_exclusion_of_acquired :
    ∀ (ws : List Bool) (s0 : TwoProc.SysState) (p q : String),
      s0.proc1.lockAcquired = false →
      s0.proc2.lockAcquired = false →
      (TwoProc.run s0 ws).proc1.lockAcquired = true →
      (TwoProc.run s0 ws).proc1.phase = TwoProc.Phase.done p →
      (TwoProc.run s0 ws).proc2.lockAcquired = true →
      (TwoProc.run s0 ws).proc2.phase = TwoProc.Phase.done q →
      p ≠ q := by
  intro ws s0 p q h1 h2 hacq1 hph1 hacq2 hph2
  have hinv0 : TwoProc.SysInv s0 := by
    refine ⟨?_, ?_, ?_⟩
    · intro hacq
      rw [h1] at hacq
      cases hacq
    · intro hacq
      rw [h2] at hacq
      cases hacq
    · intro a b hacq _ _ _
      rw [h1] at hacq
      cases hacq
  have hinv := TwoProc.run_preserves_inv ws s0 hinv0
  exact hinv.2.2 p q hacq1 hacq2 hph1 hph2

/-- C1 amended witness: in the schedule where process 1 claims `worker-a`
and process 2 loses that race and claims `worker-b`, both acquire their
locks and the two paths indeed differ. -/
theorem C1_amended_mutual_exclusion_of_acquired_witness :
    pathJoin TESTCAFE_TMP_DIRS_ROOT "worker-a" ≠
      pathJoin TESTCAFE_TMP_DIRS_ROOT "worker-b" :=
  C1_amended_mutual_exclusion_of_acquired c1SchedB c1Both
    (pathJoin TESTCAFE_TMP_DIRS_ROOT "worker-a")
    (pathJoin TESTCAFE_TMP_DIRS_ROOT "worker-b")
    rfl rfl (by decide) (by decide) (by decide) (by decide)
